import Mathlib

/-!
Shallow embedding of the PCL bound-program model (Go package `pcl`,
file `program.go`): the `node` struct with its binding-state flags and
dependency slice, and the `Program` package query surface
(`Packages`, `PackageReferences`, `PackageSnapshots`).
-/

namespace Pcl

/-- Embeds the Go struct `node`: two boolean flags plus the dependency
slice. The Go zero value has both flags false and a nil slice. Other
nodes are referenced by identifier here (Go stores pointers in a
`[]Node` slice). -/
structure node where
  binding : Bool := false
  bound : Bool := false
  deps : List Nat := []
deriving DecidableEq

/-- Zero-valued `node`, the state of a freshly allocated node. -/
def newNode : node := {}

/-- Embeds `func (r *node) markBinding() { r.binding = true }`. -/
def node.markBinding (r : node) : node := { r with binding := true }

/-- Embeds `func (r *node) markBound() { r.bound = true }`. -/
def node.markBound (r : node) : node := { r with bound := true }

/-- Embeds `func (r *node) isBinding() bool { return r.binding && !r.bound }`. -/
def node.isBinding (r : node) : Bool := r.binding && !r.bound

/-- Embeds `func (r *node) isBound() bool { return r.bound }`. -/
def node.isBound (r : node) : Bool := r.bound

/-- Embeds `func (r *node) getDependencies() []Node { return r.deps }`. -/
def node.getDependencies (r : node) : List Nat := r.deps

/-- Embeds `func (r *node) setDependencies(nodes []Node) { r.deps = nodes }`. -/
def node.setDependencies (r : node) (nodes : List Nat) : node := { r with deps := nodes }

/-- One mutating call on a node: the two state-machine transitions plus
`setDependencies`, the only other mutator of the struct. -/
inductive NodeOp where
  | markBinding
  | markBound
  | setDeps (ds : List Nat)
deriving DecidableEq

/-- Runs one call against the node state. -/
def applyOp (r : node) : NodeOp → node
  | NodeOp.markBinding => r.markBinding
  | NodeOp.markBound => r.markBound
  | NodeOp.setDeps ds => r.setDependencies ds

/-- Runs a sequence of calls, left to right. -/
def applyOps (r : node) (ops : List NodeOp) : node := ops.foldl applyOp r

/-- True on the `markBinding` call. -/
def NodeOp.hitsBinding : NodeOp → Bool
  | NodeOp.markBinding => true
  | _ => false

/-- True on the `markBound` call. -/
def NodeOp.hitsBound : NodeOp → Bool
  | NodeOp.markBound => true
  | _ => false

lemma applyOp_binding (r : node) (op : NodeOp) :
    (applyOp r op).binding = (r.binding || op.hitsBinding) := by
  cases op <;>
    simp [applyOp, node.markBinding, node.markBound, node.setDependencies, NodeOp.hitsBinding]

lemma applyOp_bound (r : node) (op : NodeOp) :
    (applyOp r op).bound = (r.bound || op.hitsBound) := by
  cases op <;>
    simp [applyOp, node.markBinding, node.markBound, node.setDependencies, NodeOp.hitsBound]

lemma applyOps_binding (ops : List NodeOp) : ∀ r : node,
    (applyOps r ops).binding = (r.binding || ops.any NodeOp.hitsBinding) := by
  induction ops with
  | nil => intro r; simp [applyOps]
  | cons op rest ih =>
    intro r
    show (applyOps (applyOp r op) rest).binding = _
    rw [ih, applyOp_binding, List.any_cons]
    cases r.binding <;> cases op.hitsBinding <;> simp

lemma applyOps_bound (ops : List NodeOp) : ∀ r : node,
    (applyOps r ops).bound = (r.bound || ops.any NodeOp.hitsBound) := by
  induction ops with
  | nil => intro r; simp [applyOps]
  | cons op rest ih =>
    intro r
    show (applyOps (applyOp r op) rest).bound = _
    rw [ih, applyOp_bound, List.any_cons]
    cases r.bound <;> cases op.hitsBound <;> simp

lemma any_hitsBinding_iff (ops : List NodeOp) :
    ops.any NodeOp.hitsBinding = true ↔ NodeOp.markBinding ∈ ops := by
  rw [List.any_eq_true]
  constructor
  · rintro ⟨op, hmem, hop⟩
    cases op with
    | markBinding => exact hmem
    | markBound => simp [NodeOp.hitsBinding] at hop
    | setDeps ds => simp [NodeOp.hitsBinding] at hop
  · intro h
    exact ⟨NodeOp.markBinding, h, rfl⟩

lemma any_hitsBound_iff (ops : List NodeOp) :
    ops.any NodeOp.hitsBound = true ↔ NodeOp.markBound ∈ ops := by
  rw [List.any_eq_true]
  constructor
  · rintro ⟨op, hmem, hop⟩
    cases op with
    | markBinding => simp [NodeOp.hitsBound] at hop
    | markBound => exact hmem
    | setDeps ds => simp [NodeOp.hitsBound] at hop
  · intro h
    exact ⟨NodeOp.markBound, h, rfl⟩

@[simp] lemma newNode_binding : newNode.binding = false := rfl

@[simp] lemma newNode_bound : newNode.bound = false := rfl

@[simp] lemma newNode_deps : newNode.deps = [] := rfl

/-- C4: over every call sequence starting from the zero-valued node,
`isBinding()` is true exactly when `markBinding()` occurs in the sequence
and `markBound()` does not: the node is in `Binding` and not yet `Bound`. -/
theorem isBinding_iff_marked_binding_not_bound (ops : List NodeOp) :
    (applyOps newNode ops).isBinding = true ↔
      (NodeOp.markBinding ∈ ops ∧ NodeOp.markBound ∉ ops) := by
  have hb := applyOps_binding ops newNode
  have hd := applyOps_bound ops newNode
  simp only [newNode_binding, newNode_bound, Bool.false_or] at hb hd
  simp only [node.isBinding, hb, hd, Bool.and_eq_true, Bool.not_eq_true']
  rw [any_hitsBinding_iff]
  constructor
  · rintro ⟨h1, h2⟩
    refine ⟨h1, fun hmem => ?_⟩
    rw [(any_hitsBound_iff ops).2 hmem] at h2
    cases h2
  · rintro ⟨h1, h2⟩
    refine ⟨h1, ?_⟩
    cases hany : ops.any NodeOp.hitsBound with
    | false => rfl
    | true => exact absurd ((any_hitsBound_iff ops).1 hany) h2

/-- C5: once `markBound()` occurs in the call history, `isBound()` stays
true and `isBinding()` stays false under every further call sequence:
the `Bound` state is permanent, with no transition back. -/
theorem bound_state_is_permanent (ops₁ ops₂ : List NodeOp)
    (h : NodeOp.markBound ∈ ops₁) :
    (applyOps (applyOps newNode ops₁) ops₂).isBound = true ∧
      (applyOps (applyOps newNode ops₁) ops₂).isBinding = false := by
  have h1 : (applyOps newNode ops₁).bound = true := by
    rw [applyOps_bound]
    simp [(any_hitsBound_iff ops₁).2 h]
  have h2 : (applyOps (applyOps newNode ops₁) ops₂).bound = true := by
    rw [applyOps_bound, h1, Bool.true_or]
  exact ⟨h2, by simp [node.isBinding, h2]⟩

/-- Witness for C5 at a concrete call history containing `markBound`. -/
theorem bound_state_is_permanent_witness :
    (applyOps (applyOps newNode [NodeOp.markBound]) [NodeOp.markBinding]).isBound = true ∧
      (applyOps (applyOps newNode [NodeOp.markBound]) [NodeOp.markBinding]).isBinding = false :=
  bound_state_is_permanent [NodeOp.markBound] [NodeOp.markBinding] (by decide)

/-- C7 counterexample: calling `markBound()` on the zero-valued node, on
which `markBinding()` was never called, is silently accepted — the node
simply becomes `Bound` — instead of being rejected as a programming
error. -/
theorem markBound_unguarded_counterexample :
    newNode.binding = false ∧ (newNode.markBound).isBound = true := by decide

/-- C7 (amended): the transition functions are unguarded boolean writes:
from any state, valid or not, `markBound()` succeeds and yields `Bound`,
and a repeated `markBinding()` or `markBound()` call is silently
absorbed; no invalid transition is rejected. -/
theorem transitions_are_unguarded (r : node) :
    (r.markBound).isBound = true ∧
      r.markBinding.markBinding = r.markBinding ∧
      r.markBound.markBound = r.markBound := by
  simp [node.markBound, node.markBinding, node.isBound]

/-- C8 counterexample: the zero-valued node has not reached `Bound`, yet
`getDependencies()` succeeds and produces a value, the empty list. -/
theorem getDependencies_before_bound_counterexample :
    newNode.isBound = false ∧ newNode.getDependencies = [] := by decide

/-- Dependency list a call sequence leaves in the struct: the argument of
the last `setDependencies` call, or the zero value when there is none. -/
def lastDeps (ops : List NodeOp) : List Nat :=
  ops.foldl (fun acc op =>
    match op with
    | NodeOp.setDeps ds => ds
    | _ => acc) []

lemma applyOps_deps (ops : List NodeOp) : ∀ r : node,
    (applyOps r ops).deps = ops.foldl (fun acc op =>
      match op with
      | NodeOp.setDeps ds => ds
      | _ => acc) r.deps := by
  induction ops with
  | nil => intro r; simp [applyOps]
  | cons op rest ih =>
    intro r
    show (applyOps (applyOp r op) rest).deps = _
    rw [ih, List.foldl_cons]
    cases op <;> rfl

/-- C8 (amended): `getDependencies()` is an unguarded field read: after
any call sequence — in particular on a node that never reached `Bound` —
it succeeds and returns the most recently stored dependency list (empty
initially). The only-valid-once-Bound restriction is a caller convention
that the code does not enforce. -/
theorem getDependencies_always_succeeds (ops : List NodeOp) :
    (applyOps newNode ops).getDependencies = lastDeps ops := by
  show (applyOps newNode ops).deps = lastDeps ops
  rw [applyOps_deps, newNode_deps, lastDeps]

/-- C10: the zero-valued node starts `Unbound` with no dependencies:
`isBinding()` and `isBound()` are false and `getDependencies()` is
empty. -/
theorem fresh_node_unbound_no_deps :
    newNode.isBinding = false ∧ newNode.isBound = false ∧
      newNode.getDependencies = [] := by decide

/-- Materialized schema package definition; the query surface treats it
as an abstract value, so a name plus a member list suffices here. -/
structure Package where
  name : String
  members : List String
deriving DecidableEq

instance {ε α : Type} [DecidableEq ε] [DecidableEq α] : DecidableEq (Except ε α) := fun a b =>
  match a, b with
  | Except.error e1, Except.error e2 =>
    if h : e1 = e2 then isTrue (by rw [h])
    else isFalse (by intro hc; injection hc with h2; exact h h2)
  | Except.error _, Except.ok _ => isFalse (by intro hc; cases hc)
  | Except.ok _, Except.error _ => isFalse (by intro hc; cases hc)
  | Except.ok v1, Except.ok v2 =>
    if h : v1 = v2 then isTrue (by rw [h])
    else isFalse (by intro hc; injection hc with h2; exact h h2)

/-- Embeds the `schema.PackageReference` interface as `program.go` uses
it: a named handle that can materialize its full definition via
`Definition()`, where the `*schema.PartialPackage` variant additionally
offers a minimized `Snapshot()`. Materialization may fail with a schema
I/O error, hence `Except`. Modelled from the spec at interface
granularity: the schema package itself is outside this excerpt. -/
inductive PackageReference where
  | full (name : String) (definition : Except String Package)
  | PartialPackage (name : String) (definition : Except String Package)
      (snapshot : Except String Package)
deriving DecidableEq

/-- Embeds `Name()`. -/
def PackageReference.Name : PackageReference → String
  | PackageReference.full n _ => n
  | PackageReference.PartialPackage n _ _ => n

/-- Embeds `Definition()`. -/
def PackageReference.Definition : PackageReference → Except String Package
  | PackageReference.full _ d => d
  | PackageReference.PartialPackage _ d _ => d

/-- True when the reference is not the partial variant. -/
def PackageReference.isFull : PackageReference → Bool
  | PackageReference.full _ _ => true
  | PackageReference.PartialPackage _ _ _ => false

/-- Per-reference materialization done inside `PackageSnapshots`: the Go
type switch calls `Snapshot()` on a `*schema.PartialPackage` and
`Definition()` on every other reference. -/
def refSnapshotValue : PackageReference → Except String Package
  | PackageReference.PartialPackage _ _ snap => snap
  | PackageReference.full _ d => d

/-- Go map `map[string]schema.PackageReference` as an association list;
iteration order of a Go map is arbitrary, so consumers must not depend
on the list order (claim C3 proves the queries do not). -/
abbrev RefMap := List (String × PackageReference)

/-- Embeds the `binder` struct as the Program queries consult it: only
its `referencedPackages` table is read there. -/
structure Binder where
  referencedPackages : RefMap

/-- Embeds `Program`: the bound node list plus the binder. The `files`
slice feeds only diagnostic rendering and is not consulted by any
operation embedded here. -/
structure Program where
  Nodes : List node
  binder : Binder

/-- Go map read `m[k]`. -/
def mapGet (m : RefMap) (k : String) : Option PackageReference :=
  (m.find? (fun kv => kv.1 == k)).map Prod.snd

/-- Key slice collected by the `for k := range` loops. -/
def mapKeys (m : RefMap) : List String := m.map Prod.fst

/-- Embeds the shared keys-collect-then-`sort.Strings` prologue of
`PackageReferences` and `PackageSnapshots`. -/
def sortedKeys (m : RefMap) : List String :=
  List.insertionSort (· ≤ ·) (mapKeys m)

/-- Values loop: look each sorted key back up in the table. Every sorted
key is a key of the table, so each read yields a value; `filterMap`
realizes the Go map indexing. -/
def sortedRefs (m : RefMap) : List PackageReference :=
  (sortedKeys m).filterMap (mapGet m)

/-- Embeds `func (p *Program) PackageReferences() []schema.PackageReference`. -/
def Program.PackageReferences (p : Program) : List PackageReference :=
  sortedRefs p.binder.referencedPackages

/-- Outcome of a Go function that can panic: a normal return or a
propagated panic carrying the panic message. -/
inductive GoResult (α : Type) where
  | ok (val : α)
  | panicked (msg : String)
deriving DecidableEq

/-- Loop body of `Packages()`: each reference is materialized through
`Definition()`, and a failure is raised as a panic wrapping the error
(`loading package definition: ...`). -/
def packagesLoop : List PackageReference → GoResult (List Package)
  | [] => GoResult.ok []
  | ref :: rest =>
    match ref.Definition with
    | Except.error e => GoResult.panicked ("loading package definition: " ++ e)
    | Except.ok d =>
      match packagesLoop rest with
      | GoResult.panicked msg => GoResult.panicked msg
      | GoResult.ok ds => GoResult.ok (d :: ds)

/-- Embeds `func (p *Program) Packages() []*schema.Package`; the Go
signature carries no error channel, so a failure escapes only as a
panic. -/
def Program.Packages (p : Program) : GoResult (List Package) :=
  packagesLoop p.PackageReferences

/-- Loop body of `PackageSnapshots()`: snapshot the partial references,
materialize the rest, and on the first failure return the error
`defining package <name>: <cause>` wrapping the failing package name. -/
def snapshotsLoop : List PackageReference → Except String (List Package)
  | [] => Except.ok []
  | ref :: rest =>
    match refSnapshotValue ref with
    | Except.error e =>
        Except.error ("defining package " ++ ref.Name ++ ": " ++ e)
    | Except.ok pkg =>
      match snapshotsLoop rest with
      | Except.error msg => Except.error msg
      | Except.ok pkgs => Except.ok (pkg :: pkgs)

/-- Embeds `func (p *Program) PackageSnapshots() ([]*schema.Package, error)`. -/
def Program.PackageSnapshots (p : Program) : Except String (List Package) :=
  snapshotsLoop (sortedRefs p.binder.referencedPackages)

/-- State-passing rendering of `PackageReferences` on the pointer
receiver: the body contains no store to any field of `p`, only reads of
`p.binder.referencedPackages`, so the threaded program state comes back
exactly as the body leaves it. -/
def Program.PackageReferencesM (p : Program) : List PackageReference × Program :=
  (sortedRefs p.binder.referencedPackages, p)

/-- State-passing rendering of `Packages` on the pointer receiver. -/
def Program.PackagesM (p : Program) : GoResult (List Package) × Program :=
  (packagesLoop (sortedRefs p.binder.referencedPackages), p)

/-- State-passing rendering of `PackageSnapshots` on the pointer
receiver. -/
def Program.PackageSnapshotsM (p : Program) : Except String (List Package) × Program :=
  (snapshotsLoop (sortedRefs p.binder.referencedPackages), p)

/-- Well-formedness of the Go map encoding: keys are distinct. -/
abbrev MapWF (m : RefMap) : Prop := (mapKeys m).Nodup

/-- The binder files each reference under its package name: every stored
reference reports its key as its `Name()`. -/
abbrev NamesMatch (m : RefMap) : Prop :=
  ∀ kv ∈ m, PackageReference.Name kv.2 = kv.1

lemma mapGet_mem (m : RefMap) (k : String) (r : PackageReference)
    (h : mapGet m k = some r) : (k, r) ∈ m := by
  unfold mapGet at h
  cases hf : m.find? (fun kv => kv.1 == k) with
  | none => rw [hf] at h; cases h
  | some kv =>
    rw [hf] at h
    have hkv : kv.2 = r := by
      simpa using h
    have hmem := List.mem_of_find?_eq_some hf
    have hk : kv.1 = k := by
      have := List.find?_some hf
      simpa using this
    have : (k, r) = kv := by
      cases kv
      simp_all
    rw [this]
    exact hmem

lemma mapGet_of_mem (m : RefMap) (hwf : MapWF m) (k : String) (r : PackageReference)
    (h : (k, r) ∈ m) : mapGet m k = some r := by
  induction m with
  | nil => cases h
  | cons kv rest ih =>
    have hwf2 := hwf
    rw [MapWF, mapKeys, List.map_cons, List.nodup_cons] at hwf2
    cases List.mem_cons.1 h with
    | inl heq =>
      unfold mapGet
      rw [List.find?_cons_of_pos]
      · rw [← heq]
        rfl
      · rw [← heq]; simp
    | inr hrest =>
      have hne : kv.1 ≠ k := by
        intro hke
        exact hwf2.1 (hke ▸ List.mem_map_of_mem Prod.fst hrest)
      unfold mapGet
      rw [List.find?_cons_of_neg]
      · exact ih hwf2.2 hrest
      · simp [hne]

lemma mapGet_none (m : RefMap) (k : String) (h : mapGet m k = none) :
    k ∉ mapKeys m := by
  intro hk
  obtain ⟨kv, hkv, hfst⟩ := List.mem_map.1 hk
  have hfind : m.find? (fun kv => kv.1 == k) = none := by
    unfold mapGet at h
    exact Option.map_eq_none.1 h
  have := List.find?_eq_none.1 hfind kv hkv
  simp [hfst] at this

lemma mapKeys_exists_get (m : RefMap) (k : String) (hk : k ∈ mapKeys m) :
    ∃ r, mapGet m k = some r := by
  cases hg : mapGet m k with
  | some r => exact ⟨r, rfl⟩
  | none => exact absurd hk (mapGet_none m k hg)

lemma mapWF_perm {m₁ m₂ : RefMap} (hwf : MapWF m₁) (hp : m₁.Perm m₂) :
    MapWF m₂ :=
  (hp.map Prod.fst).nodup hwf

lemma mapGet_perm {m₁ m₂ : RefMap} (hwf : MapWF m₁) (hp : m₁.Perm m₂)
    (k : String) : mapGet m₁ k = mapGet m₂ k := by
  have hwf₂ : MapWF m₂ := mapWF_perm hwf hp
  cases hg : mapGet m₁ k with
  | some r =>
    exact (mapGet_of_mem m₂ hwf₂ k r (hp.mem_iff.1 (mapGet_mem m₁ k r hg))).symm
  | none =>
    cases hg₂ : mapGet m₂ k with
    | none => rfl
    | some r =>
      have hm₁ : (k, r) ∈ m₁ := hp.mem_iff.2 (mapGet_mem m₂ k r hg₂)
      rw [mapGet_of_mem m₁ hwf k r hm₁] at hg
      cases hg

lemma sortedKeys_perm_eq {m₁ m₂ : RefMap} (hp : m₁.Perm m₂) :
    sortedKeys m₁ = sortedKeys m₂ :=
  @List.eq_of_perm_of_sorted String (· ≤ ·) inferInstance _ _
    ((List.perm_insertionSort _ _).trans
      ((hp.map Prod.fst).trans (List.perm_insertionSort _ _).symm))
    (List.sorted_insertionSort _ _) (List.sorted_insertionSort _ _)

lemma sortedRefs_perm_eq {m₁ m₂ : RefMap} (hwf : MapWF m₁) (hp : m₁.Perm m₂) :
    sortedRefs m₁ = sortedRefs m₂ := by
  unfold sortedRefs
  rw [sortedKeys_perm_eq hp]
  exact List.filterMap_congr (fun k _ => mapGet_perm hwf hp k)

lemma sortedKeys_sub_keys (m : RefMap) : ∀ k ∈ sortedKeys m, k ∈ mapKeys m :=
  fun _ hk => (List.perm_insertionSort _ _).mem_iff.1 hk

lemma filterMap_names (m : RefMap) (hnm : NamesMatch m) :
    ∀ l : List String, (∀ k ∈ l, k ∈ mapKeys m) →
      (l.filterMap (mapGet m)).map PackageReference.Name = l := by
  intro l
  induction l with
  | nil => intro _; rfl
  | cons k rest ih =>
    intro hsub
    obtain ⟨r, hr⟩ := mapKeys_exists_get m k (hsub k (List.mem_cons_self _ _))
    have hname : PackageReference.Name r = k := hnm (k, r) (mapGet_mem m k r hr)
    rw [List.filterMap_cons_some hr, List.map_cons, hname,
      ih (fun x hx => hsub x (List.mem_cons_of_mem _ hx))]

lemma sortedRefs_names (m : RefMap) (hnm : NamesMatch m) :
    (sortedRefs m).map PackageReference.Name = sortedKeys m :=
  filterMap_names m hnm (sortedKeys m) (sortedKeys_sub_keys m)

/-- C3: the queries are deterministic and name-sorted. Under the Go map
invariants (distinct keys, references filed under their names), the
reference list carries exactly one entry per referenced package name in
ascending name order, and two programs whose tables are permutations of
one another — the same map contents under a different insertion or
iteration order — give identical results from `PackageReferences`,
`Packages` and `PackageSnapshots`; on the same program state the pure
queries trivially repeat the same lists. -/
theorem queries_deterministic_and_sorted (p q : Program)
    (hwf : MapWF p.binder.referencedPackages)
    (hnm : NamesMatch p.binder.referencedPackages)
    (hp : p.binder.referencedPackages.Perm q.binder.referencedPackages) :
    List.Sorted (· ≤ ·) (p.PackageReferences.map PackageReference.Name) ∧
      (p.PackageReferences.map PackageReference.Name).Nodup ∧
      (p.PackageReferences.map PackageReference.Name).Perm
        (mapKeys p.binder.referencedPackages) ∧
      p.PackageReferences = q.PackageReferences ∧
      p.Packages = q.Packages ∧
      p.PackageSnapshots = q.PackageSnapshots := by
  have hnames := sortedRefs_names p.binder.referencedPackages hnm
  have hrefs : p.PackageReferences = sortedRefs p.binder.referencedPackages := rfl
  have hre : sortedRefs p.binder.referencedPackages
      = sortedRefs q.binder.referencedPackages := sortedRefs_perm_eq hwf hp
  refine ⟨?_, ?_, ?_, ?_, ?_, ?_⟩
  · rw [hrefs, hnames]
    exact List.sorted_insertionSort _ _
  · rw [hrefs, hnames]
    exact (List.perm_insertionSort _ _).symm.nodup hwf
  · rw [hrefs, hnames]
    exact List.perm_insertionSort _ _
  · rw [hrefs, hre]
    rfl
  · show packagesLoop (sortedRefs _) = packagesLoop (sortedRefs _)
    rw [hre]
  · show snapshotsLoop (sortedRefs _) = snapshotsLoop (sortedRefs _)
    rw [hre]

lemma packagesLoop_panics (refs : List PackageReference)
    (r : PackageReference) (e : String) (hr : r ∈ refs)
    (he : PackageReference.Definition r = Except.error e) :
    ∃ msg, packagesLoop refs = GoResult.panicked msg := by
  induction refs with
  | nil => cases hr
  | cons ref rest ih =>
    cases hd : PackageReference.Definition ref with
    | error e2 =>
      exact ⟨"loading package definition: " ++ e2, by simp [packagesLoop, hd]⟩
    | ok d =>
      have hr2 : r ∈ rest := by
        cases List.mem_cons.1 hr with
        | inl h => rw [h, hd] at he; cases he
        | inr h => exact h
      obtain ⟨msg, hmsg⟩ := ih hr2
      exact ⟨msg, by simp [packagesLoop, hd, hmsg]⟩

lemma snapshotsLoop_error (refs : List PackageReference)
    (r : PackageReference) (e : String) (hr : r ∈ refs)
    (he : refSnapshotValue r = Except.error e) :
    ∃ r2 e2, r2 ∈ refs ∧ refSnapshotValue r2 = Except.error e2 ∧
      snapshotsLoop refs
        = Except.error ("defining package " ++ PackageReference.Name r2 ++ ": " ++ e2) := by
  induction refs with
  | nil => cases hr
  | cons ref rest ih =>
    cases hd : refSnapshotValue ref with
    | error e2 =>
      exact ⟨ref, e2, List.mem_cons_self _ _, hd, by simp [snapshotsLoop, hd]⟩
    | ok pkg =>
      have hr2 : r ∈ rest := by
        cases List.mem_cons.1 hr with
        | inl h => rw [h, hd] at he; cases he
        | inr h => exact h
      obtain ⟨r2, e2, hmem, he2, hres⟩ := ih hr2
      exact ⟨r2, e2, List.mem_cons_of_mem _ hmem, he2, by simp [snapshotsLoop, hd, hres]⟩

lemma packagesLoop_ok_forall (refs : List PackageReference) (defs : List Package) :
    packagesLoop refs = GoResult.ok defs →
      List.Forall₂ (fun r d => PackageReference.Definition r = Except.ok d) refs defs := by
  induction refs generalizing defs with
  | nil =>
    intro h
    unfold packagesLoop at h
    injection h with h2
    rw [← h2]
    exact List.Forall₂.nil
  | cons ref rest ih =>
    intro h
    unfold packagesLoop at h
    cases hd : PackageReference.Definition ref with
    | error e => rw [hd] at h; cases h
    | ok d =>
      rw [hd] at h
      cases hrest : packagesLoop rest with
      | panicked msg => rw [hrest] at h; cases h
      | ok ds =>
        rw [hrest] at h
        injection h with h2
        rw [← h2]
        exact List.Forall₂.cons hd (ih ds hrest)

lemma snapshotsLoop_ok_forall (refs : List PackageReference) (pkgs : List Package) :
    snapshotsLoop refs = Except.ok pkgs →
      List.Forall₂ (fun r d => refSnapshotValue r = Except.ok d) refs pkgs := by
  induction refs generalizing pkgs with
  | nil =>
    intro h
    unfold snapshotsLoop at h
    injection h with h2
    rw [← h2]
    exact List.Forall₂.nil
  | cons ref rest ih =>
    intro h
    unfold snapshotsLoop at h
    cases hd : refSnapshotValue ref with
    | error e => rw [hd] at h; cases h
    | ok pkg =>
      rw [hd] at h
      cases hrest : snapshotsLoop rest with
      | error msg => rw [hrest] at h; cases h
      | ok rest2 =>
        rw [hrest] at h
        injection h with h2
        rw [← h2]
        exact List.Forall₂.cons hd (ih rest2 hrest)

lemma forall₂_get_eq {R : PackageReference → Package → Prop}
    {refs : List PackageReference} {l : List Package}
    (h : List.Forall₂ R refs l) :
    ∀ i r, refs.get? i = some r → ∃ d, l.get? i = some d ∧ R r d := by
  induction h with
  | nil =>
    intro i r hi
    cases hi
  | cons hR hrest ih =>
    intro i r hi
    cases i with
    | zero =>
      injection hi with h2
      exact ⟨_, rfl, h2 ▸ hR⟩
    | succ n => exact ih n r hi

/-- Concrete full reference that materializes successfully. -/
def awsRef : PackageReference :=
  PackageReference.full "aws" (Except.ok (Package.mk "aws" ["s3"]))

/-- Concrete partial reference with a definition and a smaller snapshot,
both succeeding. -/
def azureRef : PackageReference :=
  PackageReference.PartialPackage "azure"
    (Except.ok (Package.mk "azure" ["vm", "disk", "net"]))
    (Except.ok (Package.mk "azure" ["vm"]))

/-- Concrete full reference whose materialization fails. -/
def badRef : PackageReference :=
  PackageReference.full "bad" (Except.error "schema fetch failed")

/-- Concrete partial reference whose snapshot fails. -/
def badSnapRef : PackageReference :=
  PackageReference.PartialPackage "azure"
    (Except.ok (Package.mk "azure" ["vm"]))
    (Except.error "snapshot failed")

/-- Program over a single reference whose `Definition()` fails. -/
def progBadDef : Program :=
  Program.mk [] (Binder.mk [("bad", badRef)])

/-- Program over a single partial reference whose `Snapshot()` fails. -/
def progBadSnap : Program :=
  Program.mk [] (Binder.mk [("azure", badSnapRef)])

/-- Program over a single full reference that materializes. -/
def progFull : Program :=
  Program.mk [] (Binder.mk [("aws", awsRef)])

/-- Program with two references in one insertion order. -/
def progTwoA : Program :=
  Program.mk [] (Binder.mk [("aws", awsRef), ("azure", azureRef)])

/-- Same table as `progTwoA` in the opposite insertion order. -/
def progTwoB : Program :=
  Program.mk [] (Binder.mk [("azure", azureRef), ("aws", awsRef)])

/-- Witness for C3 on two concrete programs holding the same two-entry
table in opposite insertion orders. -/
theorem queries_deterministic_and_sorted_witness :
    List.Sorted (· ≤ ·) (progTwoA.PackageReferences.map PackageReference.Name) ∧
      (progTwoA.PackageReferences.map PackageReference.Name).Nodup ∧
      (progTwoA.PackageReferences.map PackageReference.Name).Perm
        (mapKeys progTwoA.binder.referencedPackages) ∧
      progTwoA.PackageReferences = progTwoB.PackageReferences ∧
      progTwoA.Packages = progTwoB.Packages ∧
      progTwoA.PackageSnapshots = progTwoB.PackageSnapshots :=
  queries_deterministic_and_sorted progTwoA progTwoB (by decide) (by decide) (by decide)

/-- C1 counterexample: on the program whose single referenced package
fails to materialize, `Packages()` panics; its Go signature has no error
result, so the failure is not surfaced as a returned error. -/
theorem packages_panic_counterexample :
    progBadDef.Packages
      = GoResult.panicked "loading package definition: schema fetch failed" := by
  rfl

/-- C1 (amended): a failing `Definition()` is never silently dropped, but
it escapes `Packages()` as a panic rather than a returned error: whenever
some referenced package fails to materialize, `Packages()` panics, and in
particular it does not return a partial package list. -/
theorem packages_panics_on_definition_failure (p : Program)
    (r : PackageReference) (e : String)
    (hr : r ∈ p.PackageReferences)
    (he : PackageReference.Definition r = Except.error e) :
    ∃ msg, p.Packages = GoResult.panicked msg :=
  packagesLoop_panics p.PackageReferences r e hr he

/-- Witness for the amended C1 on the concrete failing program. -/
theorem packages_panics_on_definition_failure_witness :
    ∃ msg, progBadDef.Packages = GoResult.panicked msg :=
  packages_panics_on_definition_failure progBadDef badRef "schema fetch failed"
    (by decide) (by rfl)

/-- C2: if snapshotting or materializing any single referenced package
fails, `PackageSnapshots()` returns an error naming a failing package
(the first one in name order) and returns no package list at all. -/
theorem package_snapshots_all_or_nothing (p : Program)
    (r : PackageReference) (e : String)
    (hr : r ∈ p.PackageReferences)
    (he : refSnapshotValue r = Except.error e) :
    ∃ r2 e2, r2 ∈ p.PackageReferences ∧ refSnapshotValue r2 = Except.error e2 ∧
      p.PackageSnapshots
        = Except.error ("defining package " ++ PackageReference.Name r2 ++ ": " ++ e2) :=
  snapshotsLoop_error p.PackageReferences r e hr he

/-- Witness for C2 on the concrete program whose snapshot fails. -/
theorem package_snapshots_all_or_nothing_witness :
    ∃ r2 e2, r2 ∈ progBadSnap.PackageReferences ∧
      refSnapshotValue r2 = Except.error e2 ∧
      progBadSnap.PackageSnapshots
        = Except.error ("defining package " ++ PackageReference.Name r2 ++ ": " ++ e2) :=
  package_snapshots_all_or_nothing progBadSnap badSnapRef "snapshot failed"
    (by decide) (by rfl)

/-- C6: when both queries succeed, a referenced package whose reference
was never partial receives the same value from `PackageSnapshots()` as
from `Packages()`: the snapshot path reaches `Definition()` for it too. -/
theorem full_reference_snapshot_matches_packages (p : Program) (i : Nat)
    (ref : PackageReference) (defs pkgs : List Package)
    (href : p.PackageReferences.get? i = some ref)
    (hfull : PackageReference.isFull ref = true)
    (hdefs : p.Packages = GoResult.ok defs)
    (hpkgs : p.PackageSnapshots = Except.ok pkgs) :
    pkgs.get? i = defs.get? i := by
  have h1 := packagesLoop_ok_forall p.PackageReferences defs hdefs
  have h2 := snapshotsLoop_ok_forall p.PackageReferences pkgs hpkgs
  obtain ⟨d, hd, hdef⟩ := forall₂_get_eq h1 i ref href
  obtain ⟨pk, hpk, hsnap⟩ := forall₂_get_eq h2 i ref href
  have hfd : refSnapshotValue ref = PackageReference.Definition ref := by
    cases ref with
    | full n dd => rfl
    | PartialPackage n dd ss => simp [PackageReference.isFull] at hfull
  rw [hfd, hdef] at hsnap
  injection hsnap with h3
  rw [hpk, hd, h3]

/-- Witness for C6 on the concrete single-full-reference program. -/
theorem full_reference_snapshot_matches_packages_witness :
    [Package.mk "aws" ["s3"]].get? 0 = [Package.mk "aws" ["s3"]].get? 0 :=
  full_reference_snapshot_matches_packages progFull 0 awsRef
    [Package.mk "aws" ["s3"]] [Package.mk "aws" ["s3"]]
    (by rfl) (by rfl) (by rfl) (by rfl)

/-- C9: the three queries are read-only over the program: in the
state-passing rendering of the pointer-receiver methods, each returns
the program with the referenced-package table (key set and stored
references) and the node list untouched. -/
theorem queries_leave_program_unchanged (p : Program) :
    p.PackageReferencesM.2.binder.referencedPackages
        = p.binder.referencedPackages ∧
      p.PackageReferencesM.2.Nodes = p.Nodes ∧
      p.PackagesM.2.binder.referencedPackages = p.binder.referencedPackages ∧
      p.PackagesM.2.Nodes = p.Nodes ∧
      p.PackageSnapshotsM.2.binder.referencedPackages
        = p.binder.referencedPackages ∧
      p.PackageSnapshotsM.2.Nodes = p.Nodes :=
  ⟨rfl, rfl, rfl, rfl, rfl, rfl⟩

end Pcl
